import Mathlib

/-!
Verification of the epub document core (`src/doc.rs`): container resolution,
root-base path derivation, package building (manifest / spine / metadata
passes), resource accessors and the navigation cursor.

The external collaborators (the zip archive accessor and the XML tree
parser, which live outside `src/`) are modelled from their consumed
interfaces as described in the specification; everything in `doc.rs`
is embedded directly.
-/

set_option autoImplicit false

namespace EpubRs

/-- Modelled from the spec: a node of the Tree Parser's output
(`xmlutils`, not part of the given sources).  Each node exposes an
element local name, its attributes, optional text content and the
ordered list of direct children. -/
inductive XMLNode where
  | mk : String → List (String × String) → Option String → List XMLNode → XMLNode
  deriving Repr

/-- The element local name of a node. -/
def XMLNode.local_name : XMLNode → String
  | .mk n _ _ _ => n

/-- The attribute list of a node. -/
def XMLNode.attrs : XMLNode → List (String × String)
  | .mk _ a _ _ => a

/-- The optional text content of a node. -/
def XMLNode.text : XMLNode → Option String
  | .mk _ _ t _ => t

/-- The ordered list of direct children of a node. -/
def XMLNode.childs : XMLNode → List XMLNode
  | .mk _ _ _ c => c

/-- Modelled from the spec: `get_attribute(name) -> string | AttributeMissing`;
returns the value of the first attribute with the given name. -/
def XMLNode.get_attr (n : XMLNode) (name : String) : Except String String :=
  match n.attrs.find? (fun a => a.1 == name) with
  | some a => .ok a.2
  | none => .error ("AttributeMissing: " ++ name)

mutual

/-- Modelled from the spec: the first element with the given name reachable
from the root, in document order (the node itself counts). -/
def findNode (name : String) : XMLNode → Option XMLNode
  | XMLNode.mk ln as tx cs =>
    if ln == name then some (XMLNode.mk ln as tx cs) else findNodeList name cs

/-- Document-order search of `findNode` over a list of sibling nodes. -/
def findNodeList (name : String) : List XMLNode → Option XMLNode
  | [] => none
  | c :: rest =>
    match findNode name c with
    | some r => some r
    | none => findNodeList name rest

end

/-- Modelled from the spec: `tree.find(name) -> Node | ElementNotFound`. -/
def XMLNode.find (n : XMLNode) (name : String) : Except String XMLNode :=
  match findNode name n with
  | some r => .ok r
  | none => .error ("ElementNotFound: " ++ name)

/-- Model of `HashMap::insert`: replace the binding in place when the key is
already present, append it otherwise (last write wins on the value). -/
def hmInsert {α : Type} (k : String) (v : α) : List (String × α) → List (String × α)
  | [] => [(k, v)]
  | (k', v') :: rest => if k' == k then (k, v) :: rest else (k', v') :: hmInsert k v rest

/-- Model of `HashMap::get`: the value bound to the first matching key. -/
def hmGet {α : Type} (k : String) : List (String × α) → Option α
  | [] => none
  | (k', v) :: rest => if k' == k then some v else hmGet k rest

/-- Model of the external `EpubArchive` (the archive-storage collaborator):
the parsed container descriptor, parsed XML entries by path, and raw entry
bytes by path.  Failures of the accessor or of XML parsing are already
folded into the `Except`/`Option` results. -/
structure EpubArchive where
  container : Except String XMLNode
  entryXML : String → Except String XMLNode
  entry : String → Except String (List Nat)

/-- The `EpubDoc` struct of `doc.rs`: archive, cursor (`current`), spine,
resources (id → (path, media-type)), metadata, root base and root file. -/
structure EpubDoc where
  archive : EpubArchive
  current : Nat
  spine : List String
  resources : List (String × (String × String))
  metadata : List (String × String)
  root_base : String
  root_file : String

/-- `get_root_file` of `doc.rs`: find the `rootfile` element in the parsed
container descriptor and read its `full-path` attribute. -/
def get_root_file (container : XMLNode) : Except String String := do
  let element ← container.find "rootfile"
  element.get_attr "full-path"

/-- Accumulator form of the split on `/`: collects the current segment in
reverse in `acc`. -/
def splitSlashAux : List Char → List Char → List (List Char)
  | [], acc => [acc.reverse]
  | c :: rest, acc =>
    if c = '/' then acc.reverse :: splitSlashAux rest []
    else splitSlashAux rest (c :: acc)

/-- The split performed by `regex::Regex::new(r"/").split`: the maximal
slash-free segments of the string (the empty string yields `[""]`,
leading/trailing/adjacent slashes yield empty segments). -/
def regexSplitSlash (s : String) : List String :=
  (splitSlashAux s.toList []).map (fun cs => String.mk cs)

/-- The root-base derivation of `EpubDoc::new`: split the root file path on
`/`; if there are at least two segments the base is the second-to-last one,
otherwise it is empty; append the separator. -/
def rootBaseOf (root_file : String) : String :=
  let iter := regexSplitSlash root_file
  let count := iter.length
  let base_path := if count ≥ 2 then iter.getD (count - 2) "" else ""
  base_path ++ "/"

/-- The manifest pass of `EpubDoc::fill_resources`: for each child read
`id`, `href` and `media-type` and insert `id ↦ (root_base ++ href, mtype)`. -/
def fill_manifest (root_base : String) :
    List XMLNode → List (String × (String × String)) →
    Except String (List (String × (String × String)))
  | [], res => .ok res
  | item :: rest, res => do
    let i ← item.get_attr "id"
    let href ← item.get_attr "href"
    let mtype ← item.get_attr "media-type"
    fill_manifest root_base rest (hmInsert i (root_base ++ href, mtype) res)

/-- The spine pass of `EpubDoc::fill_resources`: for each child read `idref`
and push it onto the spine. -/
def fill_spine : List XMLNode → List String → Except String (List String)
  | [], sp => .ok sp
  | item :: rest, sp => do
    let idref ← item.get_attr "idref"
    fill_spine rest (sp ++ [idref])

/-- The per-child key/value computation of the metadata pass: a `meta`
element contributes its `name`/`content` attributes, any other element
contributes its local name and its text content (or the empty string). -/
def metaKV (item : XMLNode) : Except String (String × String) :=
  if item.local_name == "meta" then do
    let k ← item.get_attr "name"
    let v ← item.get_attr "content"
    .ok (k, v)
  else
    .ok (item.local_name, match item.text with | some x => x | none => "")

/-- The metadata pass of `EpubDoc::fill_resources`: insert each child's
key/value pair in document order. -/
def fill_metadata : List XMLNode → List (String × String) →
    Except String (List (String × String))
  | [], md => .ok md
  | item :: rest, md => do
    let kv ← metaKV item
    fill_metadata rest (hmInsert kv.1 kv.2 md)

/-- `EpubDoc::fill_resources`: fetch and parse the package file, then run
the manifest, spine and metadata passes in that order. -/
def EpubDoc.fill_resources (doc : EpubDoc) : Except String EpubDoc := do
  let root ← doc.archive.entryXML doc.root_file
  let manifest ← root.find "manifest"
  let res ← fill_manifest doc.root_base manifest.childs doc.resources
  let spineEl ← root.find "spine"
  let sp ← fill_spine spineEl.childs doc.spine
  let metadataEl ← root.find "metadata"
  let md ← fill_metadata metadataEl.childs doc.metadata
  .ok { doc with resources := res, spine := sp, metadata := md }

/-- `EpubDoc::new`: resolve the container, derive the root file and root
base, then fill resources; any failure aborts the whole construction. -/
def EpubDoc.new (archive : EpubArchive) : Except String EpubDoc := do
  let container ← archive.container
  let root_file ← get_root_file container
  let doc : EpubDoc :=
    { archive := archive
      current := 0
      spine := []
      resources := []
      metadata := []
      root_base := rootBaseOf root_file
      root_file := root_file }
  doc.fill_resources

/-- `EpubDoc::go_next`: fail with "last page" when `current + 1 ≥ |spine|`,
otherwise increment the cursor.  The returned document is the state after
the call. -/
def EpubDoc.go_next (doc : EpubDoc) : Except String Unit × EpubDoc :=
  if doc.current + 1 ≥ doc.spine.length then (.error "last page", doc)
  else (.ok (), { doc with current := doc.current + 1 })

/-- `EpubDoc::go_prev`: fail with "first page" when `current < 1`,
otherwise decrement the cursor. -/
def EpubDoc.go_prev (doc : EpubDoc) : Except String Unit × EpubDoc :=
  if doc.current < 1 then (.error "first page", doc)
  else (.ok (), { doc with current := doc.current - 1 })

/-- `EpubDoc::get_num_pages`: the spine length. -/
def EpubDoc.get_num_pages (doc : EpubDoc) : Nat :=
  doc.spine.length

/-- `EpubDoc::get_current_page`: the cursor value. -/
def EpubDoc.get_current_page (doc : EpubDoc) : Nat :=
  doc.current

/-- `EpubDoc::set_current_page`: fail with "page not valid" when
`n ≥ |spine|`, otherwise set the cursor to `n`. -/
def EpubDoc.set_current_page (doc : EpubDoc) (n : Nat) : Except String Unit × EpubDoc :=
  if n ≥ doc.spine.length then (.error "page not valid", doc)
  else (.ok (), { doc with current := n })

/-- `EpubDoc::get_current_id`: the spine entry at the cursor, or the error
"current is broken" when the cursor is out of range. -/
def EpubDoc.get_current_id (doc : EpubDoc) : Except String String :=
  match doc.spine.get? doc.current with
  | some i => .ok i
  | none => .error "current is broken"

/-- `EpubDoc::get_resource_by_path`: delegate to the archive accessor. -/
def EpubDoc.get_resource_by_path (doc : EpubDoc) (path : String) :
    Except String (List Nat) :=
  doc.archive.entry path

/-- `EpubDoc::get_resource`: look the id up in resources ("id not found"
when absent), then fetch by the stored path. -/
def EpubDoc.get_resource (doc : EpubDoc) (i : String) : Except String (List Nat) :=
  match hmGet i doc.resources with
  | some s => doc.get_resource_by_path s.1
  | none => .error "id not found"

/-- `EpubDoc::get_resource_mime`: the media-type stored for the id, or
"id not found". -/
def EpubDoc.get_resource_mime (doc : EpubDoc) (i : String) : Except String String :=
  match hmGet i doc.resources with
  | some s => .ok s.2
  | none => .error "id not found"

/-- The linear scan of `EpubDoc::get_resource_mime_by_path` over the
resources entries. -/
def mimeScan (path : String) : List (String × (String × String)) → Except String String
  | [] => .error "path not found"
  | (_, v) :: rest => if v.1 == path then .ok v.2 else mimeScan path rest

/-- `EpubDoc::get_resource_mime_by_path`: linear scan comparing the stored
path, or "path not found". -/
def EpubDoc.get_resource_mime_by_path (doc : EpubDoc) (path : String) :
    Except String String :=
  mimeScan path doc.resources

/-- `EpubDoc::get_cover_id`: the metadata value under "cover", or the error
"Cover not found". -/
def EpubDoc.get_cover_id (doc : EpubDoc) : Except String String :=
  match hmGet "cover" doc.metadata with
  | some i => .ok i
  | none => .error "Cover not found"

/-- `EpubDoc::get_cover`: `get_cover_id` then `get_resource`. -/
def EpubDoc.get_cover (doc : EpubDoc) : Except String (List Nat) := do
  let cover_id ← doc.get_cover_id
  doc.get_resource cover_id

/-- A post-construction navigation operation. -/
inductive NavOp where
  | next
  | prev
  | setPage (n : Nat)

/-- Apply one navigation operation, keeping the resulting state whether the
call succeeded or failed. -/
def applyOp (doc : EpubDoc) : NavOp → EpubDoc
  | .next => (doc.go_next).2
  | .prev => (doc.go_prev).2
  | .setPage n => (doc.set_current_page n).2

/-- Apply a sequence of navigation operations. -/
def applyOps : EpubDoc → List NavOp → EpubDoc
  | doc, [] => doc
  | doc, op :: rest => applyOps (applyOp doc op) rest

/-- A parsed container descriptor holding one `rootfile` element whose
`full-path` is `OEBPS/content.opf`. -/
def containerXML : XMLNode :=
  .mk "container" [] none
    [.mk "rootfiles" [] none
      [.mk "rootfile" [("full-path", "OEBPS/content.opf")] none []]]

/-- A package file whose manifest, spine and metadata are all empty. -/
def emptySpinePackage : XMLNode :=
  .mk "package" [] none
    [.mk "manifest" [] none [], .mk "spine" [] none [], .mk "metadata" [] none []]

/-- An archive whose package file has an empty spine. -/
def emptySpineArchive : EpubArchive :=
  { container := .ok containerXML
    entryXML := fun _ => .ok emptySpinePackage
    entry := fun _ => .error "entry not found" }

/-- The document built from `emptySpineArchive`. -/
def emptySpineDoc : EpubDoc :=
  { archive := emptySpineArchive
    current := 0
    spine := []
    resources := []
    metadata := []
    root_base := "OEBPS/"
    root_file := "OEBPS/content.opf" }

/-- A three-page document at the first page, for concrete navigation
checks. -/
def sampleDoc : EpubDoc :=
  { archive := emptySpineArchive
    current := 0
    spine := ["titlepage.xhtml", "000.xhtml", "001.xhtml"]
    resources := []
    metadata := []
    root_base := "OEBPS/"
    root_file := "OEBPS/content.opf" }

/-- The same three-page document at its last page. -/
def sampleDocLast : EpubDoc :=
  { sampleDoc with current := 2 }

/-- A document with a cover metadata entry and the matching resource. -/
def coverDoc : EpubDoc :=
  { archive :=
      { container := .error "unused"
        entryXML := fun _ => .error "unused"
        entry := fun p =>
          if p = "OEBPS/images/cover.png" then .ok [1, 2, 3]
          else .error "entry not found" }
    current := 0
    spine := []
    resources := [("cover-image", ("OEBPS/images/cover.png", "image/png"))]
    metadata := [("cover", "cover-image")]
    root_base := "OEBPS/"
    root_file := "OEBPS/content.opf" }

/-- A package file whose two manifest items share the same `href` but
carry different media types. -/
def dupPathPackage : XMLNode :=
  .mk "package" [] none
    [.mk "manifest" [] none
      [.mk "item" [("id", "a"), ("href", "p"), ("media-type", "m1")] none [],
       .mk "item" [("id", "b"), ("href", "p"), ("media-type", "m2")] none []],
     .mk "spine" [] none [],
     .mk "metadata" [] none []]

/-- An archive built around `dupPathPackage`. -/
def dupPathArchive : EpubArchive :=
  { container := .ok containerXML
    entryXML := fun _ => .ok dupPathPackage
    entry := fun _ => .error "entry not found" }

/-- A container descriptor with no `rootfile` element at all. -/
def noRootfileArchive : EpubArchive :=
  { container := .ok (.mk "container" [] none [])
    entryXML := fun _ => .error "unused"
    entry := fun _ => .error "unused" }

/-- A package file with metadata (including a duplicate `title` and a
cover meta), a manifest with a duplicated item id, and a one-item spine. -/
def samplePackage : XMLNode :=
  .mk "package" [] none
    [.mk "metadata" [] none
      [.mk "meta" [("name", "cover"), ("content", "portada")] none [],
       .mk "title" [] (some "Todo es mio") [],
       .mk "title" [] (some "Second Title") []],
     .mk "manifest" [] none
      [.mk "item" [("id", "titlepage.xhtml"), ("href", "Text/titlepage.xhtml"),
          ("media-type", "application/xhtml+xml")] none [],
       .mk "item" [("id", "portada"), ("href", "Images/portada.png"),
          ("media-type", "image/png")] none [],
       .mk "item" [("id", "portada"), ("href", "Images/portada2.png"),
          ("media-type", "image/jpeg")] none []],
     .mk "spine" [] none
      [.mk "itemref" [("idref", "titlepage.xhtml")] none []]]

/-- An archive built around `samplePackage`. -/
def sampleArchive : EpubArchive :=
  { container := .ok containerXML
    entryXML := fun _ => .ok samplePackage
    entry := fun _ => .error "entry not found" }

/-- The document built from `sampleArchive`. -/
def sampleBuiltDoc : EpubDoc :=
  { archive := sampleArchive
    current := 0
    spine := ["titlepage.xhtml"]
    resources :=
      [("titlepage.xhtml", ("OEBPS/Text/titlepage.xhtml", "application/xhtml+xml")),
       ("portada", ("OEBPS/Images/portada2.png", "image/jpeg"))]
    metadata := [("cover", "portada"), ("title", "Second Title")]
    root_base := "OEBPS/"
    root_file := "OEBPS/content.opf" }

/-- The cursor is either 0 or a valid spine index; the inductive invariant
of the navigation operations. -/
def cursorOK (d : EpubDoc) : Prop :=
  d.current = 0 ∨ d.current < d.spine.length

/-- A successful `Except` bind factors into a successful first component
and a successful continuation. -/
lemma exceptBind_ok {ε α β : Type} (x : Except ε α) (f : α → Except ε β) (b : β)
    (h : (x >>= f) = .ok b) : ∃ a, x = .ok a ∧ f a = .ok b := by
  cases x with
  | error e => simp [Bind.bind, Except.bind] at h
  | ok a => exact ⟨a, rfl, h⟩

/-- Destructor for a successful `EpubDoc.new`: the container resolved, the
root file was extracted, and `fill_resources` succeeded on the initial
document. -/
lemma new_ok_elim (archive : EpubArchive) (d : EpubDoc)
    (h : EpubDoc.new archive = .ok d) :
    ∃ c rf, archive.container = .ok c ∧ get_root_file c = .ok rf ∧
      EpubDoc.fill_resources
        { archive := archive, current := 0, spine := [], resources := [],
          metadata := [], root_base := rootBaseOf rf, root_file := rf } = .ok d := by
  unfold EpubDoc.new at h
  obtain ⟨c, h1, h⟩ := exceptBind_ok _ _ _ h
  obtain ⟨rf, h2, h⟩ := exceptBind_ok _ _ _ h
  exact ⟨c, rf, h1, h2, h⟩

/-- Destructor for a successful `fill_resources`: all three passes ran and
succeeded, and the result only updates resources, spine and metadata. -/
lemma fill_resources_ok_elim (doc d : EpubDoc) (h : doc.fill_resources = .ok d) :
    ∃ root mf res spEl sp mdEl md,
      doc.archive.entryXML doc.root_file = .ok root ∧
      root.find "manifest" = .ok mf ∧
      fill_manifest doc.root_base mf.childs doc.resources = .ok res ∧
      root.find "spine" = .ok spEl ∧
      fill_spine spEl.childs doc.spine = .ok sp ∧
      root.find "metadata" = .ok mdEl ∧
      fill_metadata mdEl.childs doc.metadata = .ok md ∧
      d = { doc with resources := res, spine := sp, metadata := md } := by
  unfold EpubDoc.fill_resources at h
  obtain ⟨root, h1, h⟩ := exceptBind_ok _ _ _ h
  obtain ⟨mf, h2, h⟩ := exceptBind_ok _ _ _ h
  obtain ⟨res, h3, h⟩ := exceptBind_ok _ _ _ h
  obtain ⟨spEl, h4, h⟩ := exceptBind_ok _ _ _ h
  obtain ⟨sp, h5, h⟩ := exceptBind_ok _ _ _ h
  obtain ⟨mdEl, h6, h⟩ := exceptBind_ok _ _ _ h
  obtain ⟨md, h7, h⟩ := exceptBind_ok _ _ _ h
  simp only [Except.ok.injEq] at h
  exact ⟨root, mf, res, spEl, sp, mdEl, md, h1, h2, h3, h4, h5, h6, h7, h.symm⟩

/-- A successfully constructed document has cursor 0, derives its root
base from its root file, and records the container-resolved root file. -/
lemma new_ok_fields (archive : EpubArchive) (d : EpubDoc)
    (h : EpubDoc.new archive = .ok d) :
    d.current = 0 ∧ d.root_base = rootBaseOf d.root_file ∧
      ∃ c, archive.container = .ok c ∧ get_root_file c = .ok d.root_file := by
  obtain ⟨c, rf, h1, h2, h3⟩ := new_ok_elim archive d h
  obtain ⟨root, mf, res, spEl, sp, mdEl, md, _, _, _, _, _, _, _, hd⟩ :=
    fill_resources_ok_elim _ d h3
  subst hd
  exact ⟨rfl, rfl, c, h1, h2⟩

/-- Navigation operations never change the spine. -/
lemma applyOp_spine (d : EpubDoc) (op : NavOp) : (applyOp d op).spine = d.spine := by
  cases op <;>
    simp only [applyOp, EpubDoc.go_next, EpubDoc.go_prev, EpubDoc.set_current_page] <;>
    split <;> rfl

/-- Navigation operations never change the resources. -/
lemma applyOp_resources (d : EpubDoc) (op : NavOp) :
    (applyOp d op).resources = d.resources := by
  cases op <;>
    simp only [applyOp, EpubDoc.go_next, EpubDoc.go_prev, EpubDoc.set_current_page] <;>
    split <;> rfl

/-- Navigation operations never change the metadata. -/
lemma applyOp_metadata (d : EpubDoc) (op : NavOp) :
    (applyOp d op).metadata = d.metadata := by
  cases op <;>
    simp only [applyOp, EpubDoc.go_next, EpubDoc.go_prev, EpubDoc.set_current_page] <;>
    split <;> rfl

/-- Navigation operations never change the root base. -/
lemma applyOp_root_base (d : EpubDoc) (op : NavOp) :
    (applyOp d op).root_base = d.root_base := by
  cases op <;>
    simp only [applyOp, EpubDoc.go_next, EpubDoc.go_prev, EpubDoc.set_current_page] <;>
    split <;> rfl

/-- Sequencing form of `applyOp_spine`. -/
lemma applyOps_spine (d : EpubDoc) (ops : List NavOp) :
    (applyOps d ops).spine = d.spine := by
  induction ops generalizing d with
  | nil => rfl
  | cons op rest ih => rw [applyOps, ih, applyOp_spine]

/-- Sequencing form of `applyOp_resources`. -/
lemma applyOps_resources (d : EpubDoc) (ops : List NavOp) :
    (applyOps d ops).resources = d.resources := by
  induction ops generalizing d with
  | nil => rfl
  | cons op rest ih => rw [applyOps, ih, applyOp_resources]

/-- Sequencing form of `applyOp_metadata`. -/
lemma applyOps_metadata (d : EpubDoc) (ops : List NavOp) :
    (applyOps d ops).metadata = d.metadata := by
  induction ops generalizing d with
  | nil => rfl
  | cons op rest ih => rw [applyOps, ih, applyOp_metadata]

/-- Sequencing form of `applyOp_root_base`. -/
lemma applyOps_root_base (d : EpubDoc) (ops : List NavOp) :
    (applyOps d ops).root_base = d.root_base := by
  induction ops generalizing d with
  | nil => rfl
  | cons op rest ih => rw [applyOps, ih, applyOp_root_base]

/-- Each navigation operation preserves the cursor invariant. -/
lemma cursorOK_applyOp (d : EpubDoc) (op : NavOp) (h : cursorOK d) :
    cursorOK (applyOp d op) := by
  cases op <;>
    simp only [applyOp, EpubDoc.go_next, EpubDoc.go_prev, EpubDoc.set_current_page] <;>
    split <;> (unfold cursorOK at *; simp_all; try omega)

/-- Any sequence of navigation operations preserves the cursor invariant. -/
lemma cursorOK_applyOps (d : EpubDoc) (ops : List NavOp) (h : cursorOK d) :
    cursorOK (applyOps d ops) := by
  induction ops generalizing d with
  | nil => exact h
  | cons op rest ih => exact ih _ (cursorOK_applyOp d op h)

/-- C2: `go_next` fails with "last page" (`LastPage`) exactly when
`current + 1 ≥ |spine|` and otherwise increments the cursor by one;
`go_prev` fails with "first page" (`FirstPage`) exactly when `current < 1`
and otherwise decrements it by one; and every failing navigation call
(`go_next`, `go_prev`, `set_current_page`) leaves the cursor exactly as it
was before the call. -/
theorem nav_failure_exact_spec (d : EpubDoc) :
    (d.go_next.1 = .error "last page" ↔ d.current + 1 ≥ d.spine.length) ∧
    (d.current + 1 < d.spine.length →
      d.go_next = (.ok (), { d with current := d.current + 1 })) ∧
    (d.go_prev.1 = .error "first page" ↔ d.current < 1) ∧
    (1 ≤ d.current → d.go_prev = (.ok (), { d with current := d.current - 1 })) ∧
    (∀ e, d.go_next.1 = .error e → d.go_next.2.current = d.current) ∧
    (∀ e, d.go_prev.1 = .error e → d.go_prev.2.current = d.current) ∧
    (∀ n e, (d.set_current_page n).1 = .error e →
      (d.set_current_page n).2.current = d.current) := by
  unfold EpubDoc.go_next EpubDoc.go_prev EpubDoc.set_current_page
  refine ⟨?_, ?_, ?_, ?_, ?_, ?_, ?_⟩
  · split <;> simp_all
  · intro h; split <;> [omega; rfl]
  · split <;> simp_all
  · intro h; split <;> [omega; rfl]
  · intro e; split <;> simp_all
  · intro e; split <;> simp_all
  · intro n e; split <;> simp_all

/-- Witness for C2 at concrete documents: a successful `go_next` from page
0 of 3, and a failing `go_next` at the last page leaving the cursor put. -/
theorem nav_failure_exact_spec_witness :
    sampleDoc.go_next = (.ok (), { sampleDoc with current := sampleDoc.current + 1 }) ∧
    sampleDocLast.go_next.1 = .error "last page" ∧
    sampleDocLast.go_next.2.current = sampleDocLast.current := by
  refine ⟨(nav_failure_exact_spec sampleDoc).2.1 (by decide), ?_, ?_⟩
  · exact (nav_failure_exact_spec sampleDocLast).1.2 (by decide)
  · exact (nav_failure_exact_spec sampleDocLast).2.2.2.2.1 "last page"
      ((nav_failure_exact_spec sampleDocLast).1.2 (by decide))

/-- C3: `set_current_page n` succeeds with the cursor set to `n` exactly
for `n < get_num_pages`; for `n ≥ get_num_pages` it fails with
"page not valid" (`InvalidPageIndex`) and the cursor is unchanged. -/
theorem set_current_page_spec (d : EpubDoc) (n : Nat) :
    (n < d.get_num_pages →
      (d.set_current_page n).1 = .ok () ∧
      (d.set_current_page n).2.get_current_page = n) ∧
    (n ≥ d.get_num_pages →
      (d.set_current_page n).1 = .error "page not valid" ∧
      (d.set_current_page n).2.get_current_page = d.get_current_page) := by
  unfold EpubDoc.set_current_page EpubDoc.get_num_pages EpubDoc.get_current_page
  refine ⟨fun h => ?_, fun h => ?_⟩
  · split <;> [omega; exact ⟨rfl, rfl⟩]
  · split <;> [exact ⟨rfl, rfl⟩; omega]

/-- Witness for C3 at a concrete document: page 1 of 3 is accepted, page 5
is rejected with the cursor unchanged. -/
theorem set_current_page_spec_witness :
    ((sampleDoc.set_current_page 1).1 = .ok () ∧
      (sampleDoc.set_current_page 1).2.get_current_page = 1) ∧
    ((sampleDoc.set_current_page 5).1 = .error "page not valid" ∧
      (sampleDoc.set_current_page 5).2.get_current_page = sampleDoc.get_current_page) :=
  ⟨(set_current_page_spec sampleDoc 1).1 (by decide),
   (set_current_page_spec sampleDoc 5).2 (by decide)⟩

/-- C8: whenever `go_next` succeeds, an immediate `go_prev` also succeeds
and restores the cursor to exactly its prior value. -/
theorem go_next_then_go_prev (d : EpubDoc) (h : d.go_next.1 = .ok ()) :
    (d.go_next.2.go_prev).1 = .ok () ∧
    (d.go_next.2.go_prev).2.current = d.current := by
  unfold EpubDoc.go_next at *
  split at h
  · exact absurd h (by simp)
  · unfold EpubDoc.go_prev
    split <;> simp_all

/-- Witness for C8 at a concrete document: from page 0 of 3, `go_next`
then `go_prev` returns to page 0. -/
theorem go_next_then_go_prev_witness :
    (sampleDoc.go_next.2.go_prev).1 = .ok () ∧
    (sampleDoc.go_next.2.go_prev).2.current = sampleDoc.current :=
  go_next_then_go_prev sampleDoc (by rfl)

/-- C9: a successfully constructed document starts at cursor 0; after any
sequence of navigation calls the cursor is a valid spine index whenever
the spine is non-empty; and the spine, resources, metadata and root base
are never mutated post-construction. -/
theorem cursor_validity_invariant (archive : EpubArchive) (d : EpubDoc)
    (ops : List NavOp) (hnew : EpubDoc.new archive = .ok d) :
    d.current = 0 ∧
    (applyOps d ops).spine = d.spine ∧
    (applyOps d ops).resources = d.resources ∧
    (applyOps d ops).metadata = d.metadata ∧
    (applyOps d ops).root_base = d.root_base ∧
    (0 < (applyOps d ops).spine.length →
      (applyOps d ops).current < (applyOps d ops).spine.length) := by
  have h0 := (new_ok_fields archive d hnew).1
  have hOK := cursorOK_applyOps d ops (Or.inl h0)
  refine ⟨h0, applyOps_spine d ops, applyOps_resources d ops,
    applyOps_metadata d ops, applyOps_root_base d ops, fun hpos => ?_⟩
  rcases hOK with h | h
  · omega
  · exact h

/-- Witness for C9: the one-page sample document after a failing `go_next`
followed by a seek to page 0. -/
theorem cursor_validity_invariant_witness :
    sampleBuiltDoc.current = 0 ∧
    (applyOps sampleBuiltDoc [.next, .setPage 0]).spine = sampleBuiltDoc.spine ∧
    (applyOps sampleBuiltDoc [.next, .setPage 0]).resources = sampleBuiltDoc.resources ∧
    (applyOps sampleBuiltDoc [.next, .setPage 0]).metadata = sampleBuiltDoc.metadata ∧
    (applyOps sampleBuiltDoc [.next, .setPage 0]).root_base = sampleBuiltDoc.root_base ∧
    (0 < (applyOps sampleBuiltDoc [.next, .setPage 0]).spine.length →
      (applyOps sampleBuiltDoc [.next, .setPage 0]).current <
        (applyOps sampleBuiltDoc [.next, .setPage 0]).spine.length) :=
  cursor_validity_invariant sampleArchive sampleBuiltDoc [.next, .setPage 0] rfl

/-- C10: an empty-spine document is constructed successfully (witnessed by
`emptySpineArchive`); in any reachable state of such a document the cursor
is 0, `go_next` fails with "last page", `go_prev` fails with "first page",
`set_current_page n` fails with "page not valid" for every `n`, and
`get_current_id` fails with "current is broken". -/
theorem empty_spine_degenerate (archive : EpubArchive) (d : EpubDoc)
    (ops : List NavOp) (hnew : EpubDoc.new archive = .ok d)
    (hempty : d.spine = []) :
    (∃ d0, EpubDoc.new emptySpineArchive = .ok d0 ∧ d0.spine = []) ∧
    (applyOps d ops).current = 0 ∧
    (applyOps d ops).go_next.1 = .error "last page" ∧
    (applyOps d ops).go_prev.1 = .error "first page" ∧
    (∀ n, ((applyOps d ops).set_current_page n).1 = .error "page not valid") ∧
    (applyOps d ops).get_current_id = .error "current is broken" := by
  have hsp : (applyOps d ops).spine = [] := (applyOps_spine d ops).trans hempty
  have hcur : (applyOps d ops).current = 0 := by
    rcases cursorOK_applyOps d ops (Or.inl (new_ok_fields archive d hnew).1) with h | h
    · exact h
    · rw [hsp] at h; simp at h
  refine ⟨⟨emptySpineDoc, rfl, rfl⟩, hcur, ?_, ?_, fun n => ?_, ?_⟩
  · simp [EpubDoc.go_next, hsp]
  · simp [EpubDoc.go_prev, hcur]
  · simp [EpubDoc.set_current_page, hsp]
  · simp [EpubDoc.get_current_id, hsp]

/-- The first binding found by `hmGet` is an entry of the list. -/
lemma hmGet_mem {α : Type} (k : String) (v : α) (l : List (String × α))
    (h : hmGet k l = some v) : (k, v) ∈ l := by
  induction l with
  | nil => simp [hmGet] at h
  | cons hd tl ih =>
    unfold hmGet at h
    split at h
    · next heq =>
      simp only [Option.some.injEq] at h
      have h1 : hd.1 = k := by simpa using heq
      have h2 : hd = (k, v) := by
        cases hd
        simp_all
      rw [← h2]
      exact List.mem_cons_self _ _
    · exact List.mem_cons_of_mem hd (ih h)

/-- If some entry of the resources list has the sought path, the linear
scan succeeds and returns the media type of an entry with that path. -/
lemma mimeScan_finds (p : String) (l : List (String × (String × String)))
    (e : String × (String × String)) (hmem : e ∈ l) (hp : e.2.1 = p) :
    ∃ m2 e2, mimeScan p l = .ok m2 ∧ e2 ∈ l ∧ e2.2.1 = p ∧ e2.2.2 = m2 := by
  induction l with
  | nil => cases hmem
  | cons hd tl ih =>
    unfold mimeScan
    rcases hd with ⟨k, v⟩
    by_cases hv : v.1 = p
    · exact ⟨v.2, (k, v), by simp [hv], List.mem_cons_self _ _, hv, rfl⟩
    · have hmem2 : e ∈ tl := by
        rcases List.mem_cons.mp hmem with h | h
        · exfalso; rw [h] at hp; exact hv hp
        · exact h
      obtain ⟨m2, e2, hscan, hmem3, hp2, hm2⟩ := ih hmem2
      exact ⟨m2, e2, by simp [hv, hscan], List.mem_cons_of_mem _ hmem3, hp2, hm2⟩

/-- C6 (amended): when `i` is stored with location `p` and media type `m`,
`get_resource_mime i` returns `m` and `get_resource_mime_by_path p`
succeeds, returning the media type of some entry stored at `p`; the two
lookups agree whenever every entry stored at `p` carries the same media
type (in particular when `p` is stored for only one id). -/
theorem mime_by_id_and_path_agree (d : EpubDoc) (i p m : String)
    (h : hmGet i d.resources = some (p, m)) :
    d.get_resource_mime i = .ok m ∧
    (∃ m2 e2, d.get_resource_mime_by_path p = .ok m2 ∧
      e2 ∈ d.resources ∧ e2.2.1 = p ∧ e2.2.2 = m2) ∧
    ((∀ e2 ∈ d.resources, e2.2.1 = p → e2.2.2 = m) →
      d.get_resource_mime_by_path p = .ok m) := by
  have hmem := hmGet_mem i (p, m) d.resources h
  obtain ⟨m2, e2, hscan, hmem2, hp2, hm2⟩ :=
    mimeScan_finds p d.resources (i, (p, m)) hmem rfl
  refine ⟨by simp [EpubDoc.get_resource_mime, h],
    ⟨m2, e2, hscan, hmem2, hp2, hm2⟩, fun huniq => ?_⟩
  have hm : m2 = m := hm2 ▸ huniq e2 hmem2 hp2
  rw [EpubDoc.get_resource_mime_by_path] at *
  rw [hscan, hm]

/-- Counterexample to C6 as stated: in the document built from
`dupPathArchive` both manifest items resolve to the location "OEBPS/p",
so for id "b" (stored location "OEBPS/p", media type "m2") the id lookup
returns "m2" while the path lookup returns "m1" from the other entry. -/
theorem mime_by_id_and_path_agree_counterexample :
    (EpubDoc.new dupPathArchive).toOption.map
        (fun d => (hmGet "b" d.resources,
                   d.get_resource_mime "b",
                   d.get_resource_mime_by_path "OEBPS/p")) =
      some (some ("OEBPS/p", "m2"), .ok "m2", .ok "m1") ∧
    (Except.ok "m2" : Except String String) ≠ .ok "m1" :=
  ⟨rfl, by simp⟩

/-- Witness for C6 (amended) at a concrete document with a unique cover
resource. -/
theorem mime_by_id_and_path_agree_witness :
    coverDoc.get_resource_mime "cover-image" = .ok "image/png" ∧
    (∃ m2 e2, coverDoc.get_resource_mime_by_path "OEBPS/images/cover.png" = .ok m2 ∧
      e2 ∈ coverDoc.resources ∧ e2.2.1 = "OEBPS/images/cover.png" ∧ e2.2.2 = m2) ∧
    ((∀ e2 ∈ coverDoc.resources,
        e2.2.1 = "OEBPS/images/cover.png" → e2.2.2 = "image/png") →
      coverDoc.get_resource_mime_by_path "OEBPS/images/cover.png" = .ok "image/png") :=
  mime_by_id_and_path_agree coverDoc "cover-image" "OEBPS/images/cover.png"
    "image/png" rfl

/-- C7: `get_cover_id` returns the metadata value under "cover" when
present and fails with "Cover not found" (`CoverNotFound`) exactly when it
is absent; `get_cover` is `get_cover_id` followed by `get_resource`,
propagating whichever of the two failures occurs. -/
theorem cover_spec (d : EpubDoc) :
    (∀ i, hmGet "cover" d.metadata = some i →
      d.get_cover_id = .ok i ∧ d.get_cover = d.get_resource i) ∧
    (hmGet "cover" d.metadata = none →
      d.get_cover_id = .error "Cover not found" ∧
      d.get_cover = .error "Cover not found") ∧
    (∀ e, d.get_cover_id = .error e → d.get_cover = .error e) ∧
    (∀ i, d.get_cover_id = .ok i → d.get_cover = d.get_resource i) := by
  refine ⟨fun i h => ?_, fun h => ?_, fun e h => ?_, fun i h => ?_⟩ <;>
    simp_all [EpubDoc.get_cover, EpubDoc.get_cover_id, Bind.bind, Except.bind]

/-- Witness for C7 at a concrete document holding a cover entry. -/
theorem cover_spec_witness :
    coverDoc.get_cover_id = .ok "cover-image" ∧
    coverDoc.get_cover = coverDoc.get_resource "cover-image" :=
  (cover_spec coverDoc).1 "cover-image" rfl

/-- Witness for C10 at the concrete empty-spine archive, after one failing
navigation call. -/
theorem empty_spine_degenerate_witness :
    (∃ d0, EpubDoc.new emptySpineArchive = .ok d0 ∧ d0.spine = []) ∧
    (applyOps emptySpineDoc [.next]).current = 0 ∧
    (applyOps emptySpineDoc [.next]).go_next.1 = .error "last page" ∧
    (applyOps emptySpineDoc [.next]).go_prev.1 = .error "first page" ∧
    (∀ n, ((applyOps emptySpineDoc [.next]).set_current_page n).1 =
      .error "page not valid") ∧
    (applyOps emptySpineDoc [.next]).get_current_id = .error "current is broken" :=
  empty_spine_degenerate emptySpineArchive emptySpineDoc [.next] rfl rfl

/-- A successful `find` means the document-order search located the node. -/
lemma find_ok_elim (n : XMLNode) (name : String) (r : XMLNode)
    (h : n.find name = .ok r) : findNode name n = some r := by
  unfold XMLNode.find at h
  split at h
  · next x hf => simp only [Except.ok.injEq] at h; subst h; exact hf
  · next hf => simp at h

/-- Destructor for a successful `get_root_file`: a `rootfile` element was
found and its `full-path` attribute read. -/
lemma get_root_file_ok_elim (c : XMLNode) (rf : String)
    (h : get_root_file c = .ok rf) :
    ∃ el, findNode "rootfile" c = some el ∧ el.get_attr "full-path" = .ok rf := by
  unfold get_root_file at h
  obtain ⟨el, h1, h2⟩ := exceptBind_ok _ _ _ h
  exact ⟨el, find_ok_elim c "rootfile" el h1, h2⟩

/-- A missing attribute makes `get_attr` fail. -/
lemma get_attr_error_of_none (n : XMLNode) (name : String)
    (h : n.attrs.find? (fun a => a.1 == name) = none) :
    n.get_attr name = .error ("AttributeMissing: " ++ name) := by
  unfold XMLNode.get_attr
  rw [h]

/-- Lookup after insertion: the inserted key now maps to the new value and
every other key is untouched. -/
lemma hmGet_hmInsert {α : Type} (k k2 : String) (v2 : α) (l : List (String × α)) :
    hmGet k (hmInsert k2 v2 l) = if k2 = k then some v2 else hmGet k l := by
  induction l with
  | nil => simp only [hmInsert, hmGet]; split_ifs <;> simp_all
  | cons hd tl ih =>
    unfold hmInsert
    by_cases h1 : hd.1 = k2
    · simp only [h1, beq_self_eq_true, if_true]
      unfold hmGet
      split_ifs <;> simp_all
    · simp only [show (hd.1 == k2) = false by simpa using h1, Bool.false_eq_true, if_false]
      unfold hmGet
      rw [ih]
      split_ifs <;> simp_all

/-- Full destructor for a successful `EpubDoc.new`: every stage succeeded
and the resulting document is determined by the three passes run on empty
tables. -/
lemma new_ok_full_elim (archive : EpubArchive) (d : EpubDoc)
    (h : EpubDoc.new archive = .ok d) :
    ∃ c rf root mf res spEl sp mdEl md,
      archive.container = .ok c ∧
      get_root_file c = .ok rf ∧
      archive.entryXML rf = .ok root ∧
      root.find "manifest" = .ok mf ∧
      fill_manifest (rootBaseOf rf) mf.childs [] = .ok res ∧
      root.find "spine" = .ok spEl ∧
      fill_spine spEl.childs [] = .ok sp ∧
      root.find "metadata" = .ok mdEl ∧
      fill_metadata mdEl.childs [] = .ok md ∧
      d = { archive := archive, current := 0, spine := sp, resources := res,
            metadata := md, root_base := rootBaseOf rf, root_file := rf } := by
  obtain ⟨c, rf, h1, h2, h3⟩ := new_ok_elim archive d h
  obtain ⟨root, mf, res, spEl, sp, mdEl, md, g1, g2, g3, g4, g5, g6, g7, gd⟩ :=
    fill_resources_ok_elim _ d h3
  exact ⟨c, rf, root, mf, res, spEl, sp, mdEl, md, h1, h2, g1, g2, g3, g4, g5, g6, g7, gd⟩

/-- The manifest pass cannot succeed if some item is missing one of the
three required attributes. -/
lemma fill_manifest_err (rb : String) (childs : List XMLNode) (item : XMLNode)
    (hmem : item ∈ childs)
    (hbad : item.attrs.find? (fun a => a.1 == "id") = none ∨
            item.attrs.find? (fun a => a.1 == "href") = none ∨
            item.attrs.find? (fun a => a.1 == "media-type") = none) :
    ∀ res0 res, fill_manifest rb childs res0 ≠ .ok res := by
  induction childs with
  | nil => cases hmem
  | cons hd tl ih =>
    intro res0 res h
    unfold fill_manifest at h
    obtain ⟨i, hi, h⟩ := exceptBind_ok _ _ _ h
    obtain ⟨hr, hh, h⟩ := exceptBind_ok _ _ _ h
    obtain ⟨mt, hm, h⟩ := exceptBind_ok _ _ _ h
    rcases List.mem_cons.mp hmem with heq | hmem2
    · subst heq
      rcases hbad with hb | hb | hb
      · rw [get_attr_error_of_none _ _ hb] at hi; cases hi
      · rw [get_attr_error_of_none _ _ hb] at hh; cases hh
      · rw [get_attr_error_of_none _ _ hb] at hm; cases hm
    · exact ih hmem2 _ _ h

/-- Every binding produced by a successful manifest pass either predates
the pass or comes from some manifest item, with location
`root_base ++ href`. -/
lemma fill_manifest_lookup (rb : String) (childs : List XMLNode) :
    ∀ res0 res, fill_manifest rb childs res0 = .ok res →
    ∀ k v, hmGet k res = some v →
      hmGet k res0 = some v ∨
      ∃ item ∈ childs, ∃ href mt, item.get_attr "id" = .ok k ∧
        item.get_attr "href" = .ok href ∧ item.get_attr "media-type" = .ok mt ∧
        v = (rb ++ href, mt) := by
  induction childs with
  | nil =>
    intro res0 res h k v hv
    unfold fill_manifest at h
    simp only [Except.ok.injEq] at h
    subst h
    exact Or.inl hv
  | cons hd tl ih =>
    intro res0 res h k v hv
    unfold fill_manifest at h
    obtain ⟨i, hi, h⟩ := exceptBind_ok _ _ _ h
    obtain ⟨hr, hh, h⟩ := exceptBind_ok _ _ _ h
    obtain ⟨mt, hm, h⟩ := exceptBind_ok _ _ _ h
    rcases ih _ _ h k v hv with hbase | ⟨item, hmem, href, mt2, h1, h2, h3, h4⟩
    · rw [hmGet_hmInsert] at hbase
      by_cases hik : i = k
      · subst hik
        simp only [if_true] at hbase
        simp only [Option.some.injEq] at hbase
        exact Or.inr ⟨hd, List.mem_cons_self _ _, hr, mt, hi, hh, hm, hbase.symm⟩
      · rw [if_neg hik] at hbase
        exact Or.inl hbase
    · exact Or.inr ⟨item, List.mem_cons_of_mem _ hmem, href, mt2, h1, h2, h3, h4⟩

/-- The manifest pass over a concatenation factors through the
intermediate table. -/
lemma fill_manifest_append (rb : String) (xs ys : List XMLNode) :
    ∀ res0 res, fill_manifest rb (xs ++ ys) res0 = .ok res →
    ∃ mid, fill_manifest rb xs res0 = .ok mid ∧ fill_manifest rb ys mid = .ok res := by
  induction xs with
  | nil => intro res0 res h; exact ⟨res0, rfl, h⟩
  | cons hd tl ih =>
    intro res0 res h
    rw [List.cons_append] at h
    unfold fill_manifest at h
    obtain ⟨i, hi, h⟩ := exceptBind_ok _ _ _ h
    obtain ⟨hr, hh, h⟩ := exceptBind_ok _ _ _ h
    obtain ⟨mt, hm, h⟩ := exceptBind_ok _ _ _ h
    obtain ⟨mid, hmid, hys⟩ := ih _ _ h
    refine ⟨mid, ?_, hys⟩
    unfold fill_manifest
    rw [hi, hh, hm]
    exact hmid

/-- The manifest pass leaves a key untouched when no processed item bears
that id. -/
lemma fill_manifest_skip (rb k : String) (post : List XMLNode)
    (hno : ∀ it ∈ post, it.get_attr "id" ≠ .ok k) :
    ∀ res0 res, fill_manifest rb post res0 = .ok res →
    hmGet k res = hmGet k res0 := by
  induction post with
  | nil =>
    intro res0 res h
    unfold fill_manifest at h
    simp only [Except.ok.injEq] at h
    subst h
    rfl
  | cons hd tl ih =>
    intro res0 res h
    unfold fill_manifest at h
    obtain ⟨i, hi, h⟩ := exceptBind_ok _ _ _ h
    obtain ⟨hr, hh, h⟩ := exceptBind_ok _ _ _ h
    obtain ⟨mt, hm, h⟩ := exceptBind_ok _ _ _ h
    have hik : i ≠ k := fun he => hno hd (List.mem_cons_self _ _) (he ▸ hi)
    rw [ih (fun it hit => hno it (List.mem_cons_of_mem _ hit)) _ _ h, hmGet_hmInsert,
      if_neg hik]

/-- The metadata pass over a concatenation factors through the
intermediate table. -/
lemma fill_metadata_append (xs ys : List XMLNode) :
    ∀ md0 md, fill_metadata (xs ++ ys) md0 = .ok md →
    ∃ mid, fill_metadata xs md0 = .ok mid ∧ fill_metadata ys mid = .ok md := by
  induction xs with
  | nil => intro md0 md h; exact ⟨md0, rfl, h⟩
  | cons hd tl ih =>
    intro md0 md h
    rw [List.cons_append] at h
    unfold fill_metadata at h
    obtain ⟨kv, hkv, h⟩ := exceptBind_ok _ _ _ h
    obtain ⟨mid, hmid, hys⟩ := ih _ _ h
    refine ⟨mid, ?_, hys⟩
    unfold fill_metadata
    rw [hkv]
    exact hmid

/-- The metadata pass leaves a key untouched when no processed child
produces that key. -/
lemma fill_metadata_skip (k : String) (post : List XMLNode)
    (hno : ∀ it ∈ post, ∀ v2, metaKV it ≠ .ok (k, v2)) :
    ∀ md0 md, fill_metadata post md0 = .ok md →
    hmGet k md = hmGet k md0 := by
  induction post with
  | nil =>
    intro md0 md h
    unfold fill_metadata at h
    simp only [Except.ok.injEq] at h
    subst h
    rfl
  | cons hd tl ih =>
    intro md0 md h
    unfold fill_metadata at h
    obtain ⟨kv, hkv, h⟩ := exceptBind_ok _ _ _ h
    have hik : kv.1 ≠ k := by
      intro he
      exact hno hd (List.mem_cons_self _ _) kv.2 (by rw [← he]; simpa using hkv)
    rw [ih (fun it hit => hno it (List.mem_cons_of_mem _ hit)) _ _ h, hmGet_hmInsert,
      if_neg hik]

/-- C1: construction returns an error — and never a document — whenever
the container lacks a `rootfile` element, the `rootfile` lacks a
`full-path` attribute, the package file lacks a `manifest`, `spine` or
`metadata` element, or any manifest item is missing an `id`, `href` or
`media-type` attribute. -/
theorem construction_fails_on_missing_parts (archive : EpubArchive) (c : XMLNode)
    (hc : archive.container = .ok c)
    (hbad :
      findNode "rootfile" c = none ∨
      (∃ el, findNode "rootfile" c = some el ∧
        el.attrs.find? (fun a => a.1 == "full-path") = none) ∨
      (∃ rf root, get_root_file c = .ok rf ∧ archive.entryXML rf = .ok root ∧
        (findNode "manifest" root = none ∨
         findNode "spine" root = none ∨
         findNode "metadata" root = none ∨
         ∃ mf item, findNode "manifest" root = some mf ∧ item ∈ mf.childs ∧
           (item.attrs.find? (fun a => a.1 == "id") = none ∨
            item.attrs.find? (fun a => a.1 == "href") = none ∨
            item.attrs.find? (fun a => a.1 == "media-type") = none)))) :
    (∃ e, EpubDoc.new archive = .error e) ∧ ∀ d, EpubDoc.new archive ≠ .ok d := by
  have hnotok : ∀ d, EpubDoc.new archive ≠ .ok d := by
    intro d hok
    obtain ⟨c2, rf, root, mf, res, spEl, sp, mdEl, md,
      hc2, hrf, hroot, hmf, hman, hspEl, hsp, hmdEl, hmd, hd⟩ :=
      new_ok_full_elim archive d hok
    rw [hc] at hc2
    injection hc2 with hc2
    subst hc2
    obtain ⟨el, hel, hattr⟩ := get_root_file_ok_elim c rf hrf
    rcases hbad with hb | ⟨el2, hel2, hb⟩ | ⟨rf2, root2, hrf2, hroot2, hb⟩
    · rw [hb] at hel; cases hel
    · rw [hel] at hel2
      injection hel2 with hel2
      subst hel2
      rw [get_attr_error_of_none _ _ hb] at hattr
      cases hattr
    · rw [hrf] at hrf2
      injection hrf2 with hrf2
      subst hrf2
      rw [hroot] at hroot2
      injection hroot2 with hroot2
      subst hroot2
      rcases hb with hno | hno | hno | ⟨mf2, item, hmf2, hmem, hbad2⟩
      · rw [find_ok_elim _ _ _ hmf] at hno; cases hno
      · rw [find_ok_elim _ _ _ hspEl] at hno; cases hno
      · rw [find_ok_elim _ _ _ hmdEl] at hno; cases hno
      · rw [find_ok_elim _ _ _ hmf] at hmf2
        injection hmf2 with hmf2
        subst hmf2
        exact fill_manifest_err _ _ item hmem hbad2 _ _ hman
  refine ⟨?_, hnotok⟩
  cases hn : EpubDoc.new archive with
  | error e => exact ⟨e, rfl⟩
  | ok d => exact absurd hn (hnotok d)

/-- Witness for C1 at a concrete archive whose container descriptor has no
`rootfile` element. -/
theorem construction_fails_on_missing_parts_witness :
    (∃ e, EpubDoc.new noRootfileArchive = .error e) ∧
    ∀ d, EpubDoc.new noRootfileArchive ≠ .ok d :=
  construction_fails_on_missing_parts noRootfileArchive
    (.mk "container" [] none []) rfl (Or.inl rfl)

/-- C4: for every constructed document the root base is the second-to-last
segment of the slash-split root file path followed by "/" (just "/" when
the split has fewer than two segments), and every stored resource location
is the plain concatenation `root_base ++ href` of some manifest item's
`href` — not a relative-path join. -/
theorem root_base_rule_and_locations (archive : EpubArchive) (d : EpubDoc)
    (hnew : EpubDoc.new archive = .ok d) :
    (∃ c, archive.container = .ok c ∧ get_root_file c = .ok d.root_file) ∧
    d.root_base =
      (if (regexSplitSlash d.root_file).length ≥ 2
       then (regexSplitSlash d.root_file).getD
         ((regexSplitSlash d.root_file).length - 2) ""
       else "") ++ "/" ∧
    (∀ i p mt, hmGet i d.resources = some (p, mt) →
      ∃ root mf item href,
        archive.entryXML d.root_file = .ok root ∧
        root.find "manifest" = .ok mf ∧ item ∈ mf.childs ∧
        item.get_attr "href" = .ok href ∧ p = d.root_base ++ href) := by
  obtain ⟨c, rf, root, mf, res, spEl, sp, mdEl, md,
    hc, hrf, hroot, hmf, hman, hspEl, hsp, hmdEl, hmd, hd⟩ :=
    new_ok_full_elim archive d hnew
  subst hd
  refine ⟨⟨c, hc, hrf⟩, rfl, fun i p mt hv => ?_⟩
  rcases fill_manifest_lookup _ _ _ _ hman i (p, mt) hv with
    hbase | ⟨item, hmem, href, mt2, h1, h2, h3, h4⟩
  · simp [hmGet] at hbase
  · simp only [Prod.mk.injEq] at h4
    exact ⟨root, mf, item, href, hroot, hmf, hmem, h2, h4.1⟩

/-- Witness for C4 at the concrete sample archive: the root base is
"OEBPS/" and the stored location of "portada" decomposes as
`root_base ++ href`. -/
theorem root_base_rule_and_locations_witness :
    sampleBuiltDoc.root_base =
      (if (regexSplitSlash sampleBuiltDoc.root_file).length ≥ 2
       then (regexSplitSlash sampleBuiltDoc.root_file).getD
         ((regexSplitSlash sampleBuiltDoc.root_file).length - 2) ""
       else "") ++ "/" ∧
    (∃ root mf item href,
      sampleArchive.entryXML sampleBuiltDoc.root_file = .ok root ∧
      root.find "manifest" = .ok mf ∧ item ∈ mf.childs ∧
      item.get_attr "href" = .ok href ∧
      "OEBPS/Images/portada2.png" = sampleBuiltDoc.root_base ++ href) :=
  ⟨(root_base_rule_and_locations sampleArchive sampleBuiltDoc rfl).2.1,
   (root_base_rule_and_locations sampleArchive sampleBuiltDoc rfl).2.2 "portada"
     "OEBPS/Images/portada2.png" "image/jpeg" rfl⟩

/-- C5: duplicate keys resolve last-write-wins in document order — a
manifest item followed by no other item with the same id determines the
(path, media-type) seen by lookups under that id, and a metadata child
followed by no other child producing the same key determines the stored
value under that key. -/
theorem duplicate_keys_last_write_wins (archive : EpubArchive) (d : EpubDoc)
    (root mf mdEl : XMLNode)
    (hnew : EpubDoc.new archive = .ok d)
    (hroot : archive.entryXML d.root_file = .ok root)
    (hmf : root.find "manifest" = .ok mf)
    (hmdElh : root.find "metadata" = .ok mdEl) :
    (∀ pre item post i href mt,
      mf.childs = pre ++ item :: post →
      item.get_attr "id" = .ok i →
      item.get_attr "href" = .ok href →
      item.get_attr "media-type" = .ok mt →
      (∀ it ∈ post, it.get_attr "id" ≠ .ok i) →
      hmGet i d.resources = some (d.root_base ++ href, mt) ∧
      d.get_resource_mime i = .ok mt) ∧
    (∀ pre item post k v,
      mdEl.childs = pre ++ item :: post →
      metaKV item = .ok (k, v) →
      (∀ it ∈ post, ∀ v2, metaKV it ≠ .ok (k, v2)) →
      hmGet k d.metadata = some v) := by
  obtain ⟨c, rf, root2, mf2, res, spEl, sp, mdEl2, md,
    hc, hrf, hroot2, hmf2, hman, hspEl, hsp, hmdEl2, hmd, hd⟩ :=
    new_ok_full_elim archive d hnew
  subst hd
  rw [hroot2] at hroot
  injection hroot with hroot
  subst hroot
  rw [hmf2] at hmf
  injection hmf with hmf
  subst hmf
  rw [hmdEl2] at hmdElh
  injection hmdElh with hmdElh
  subst hmdElh
  constructor
  · intro pre item post i href mt hch hid hhref hmt hno
    rw [hch] at hman
    obtain ⟨mid, hpre, hrest⟩ := fill_manifest_append _ _ _ _ _ hman
    unfold fill_manifest at hrest
    obtain ⟨i2, hi2, hrest⟩ := exceptBind_ok _ _ _ hrest
    obtain ⟨hr2, hh2, hrest⟩ := exceptBind_ok _ _ _ hrest
    obtain ⟨mt2, hm2, hrest⟩ := exceptBind_ok _ _ _ hrest
    rw [hid] at hi2
    injection hi2 with hi2
    subst hi2
    rw [hhref] at hh2
    injection hh2 with hh2
    subst hh2
    rw [hmt] at hm2
    injection hm2 with hm2
    subst hm2
    have hfinal := fill_manifest_skip _ _ _ hno _ _ hrest
    rw [hmGet_hmInsert, if_pos rfl] at hfinal
    refine ⟨hfinal, ?_⟩
    unfold EpubDoc.get_resource_mime
    rw [hfinal]
  · intro pre item post k v hch hkv hno
    rw [hch] at hmd
    obtain ⟨mid, hpre, hrest⟩ := fill_metadata_append _ _ _ _ hmd
    unfold fill_metadata at hrest
    obtain ⟨kv2, hkv2, hrest⟩ := exceptBind_ok _ _ _ hrest
    rw [hkv] at hkv2
    injection hkv2 with hkv2
    subst hkv2
    have hfinal := fill_metadata_skip _ _ hno _ _ hrest
    rw [hmGet_hmInsert, if_pos rfl] at hfinal
    exact hfinal

/-- Witness for C5 at the concrete sample archive: the duplicated manifest
id "portada" resolves to the later item's path and media type, and the
duplicated metadata key "title" resolves to the later child's text. -/
theorem duplicate_keys_last_write_wins_witness :
    (hmGet "portada" sampleBuiltDoc.resources =
        some (sampleBuiltDoc.root_base ++ "Images/portada2.png", "image/jpeg") ∧
      sampleBuiltDoc.get_resource_mime "portada" = .ok "image/jpeg") ∧
    hmGet "title" sampleBuiltDoc.metadata = some "Second Title" := by
  have h := duplicate_keys_last_write_wins sampleArchive sampleBuiltDoc samplePackage
    (.mk "manifest" [] none
      [.mk "item" [("id", "titlepage.xhtml"), ("href", "Text/titlepage.xhtml"),
          ("media-type", "application/xhtml+xml")] none [],
       .mk "item" [("id", "portada"), ("href", "Images/portada.png"),
          ("media-type", "image/png")] none [],
       .mk "item" [("id", "portada"), ("href", "Images/portada2.png"),
          ("media-type", "image/jpeg")] none []])
    (.mk "metadata" [] none
      [.mk "meta" [("name", "cover"), ("content", "portada")] none [],
       .mk "title" [] (some "Todo es mio") [],
       .mk "title" [] (some "Second Title") []])
    rfl rfl rfl rfl
  refine ⟨h.1
      [.mk "item" [("id", "titlepage.xhtml"), ("href", "Text/titlepage.xhtml"),
          ("media-type", "application/xhtml+xml")] none [],
       .mk "item" [("id", "portada"), ("href", "Images/portada.png"),
          ("media-type", "image/png")] none []]
      (.mk "item" [("id", "portada"), ("href", "Images/portada2.png"),
          ("media-type", "image/jpeg")] none [])
      [] "portada" "Images/portada2.png" "image/jpeg" rfl rfl rfl rfl (by simp),
    h.2
      [.mk "meta" [("name", "cover"), ("content", "portada")] none [],
       .mk "title" [] (some "Todo es mio") []]
      (.mk "title" [] (some "Second Title") [])
      [] "title" "Second Title" rfl rfl (by simp)⟩

end EpubRs
